import Mathlib

/-!
Verification of the crypto dashboard repository: a poller
(crypto_tracker.py) that fetches bitcoin/ethereum prices into an
append-only SQLite table `crypto_prices`, and read-only query layers
(crypto_dashboard.py, crypto_visualizer.py, query_data.py).

Modelling conventions:
* Prices, market caps and volumes are modelled as rationals (`ℚ`).
* Timestamps are modelled as natural numbers.  The code stores
  timestamps as fixed-width strings `YYYY-MM-DD HH:MM:SS` which SQLite
  compares lexicographically; on that fixed-width format lexicographic
  order coincides with chronological order, so `ℕ` with `≤` is an
  order-faithful model at second precision.
* The store (table `crypto_prices`) is a list of rows in insertion
  (rowid) order.
* Python exceptions are modelled with `Except`/`Option`: a function that
  can raise returns `Except.error`, a `try/except` that returns `None`
  on failure returns `none`.
-/

/-- One row of the `crypto_prices` table (crypto_tracker.py,
`setup_database`): cryptocurrency TEXT, price_usd REAL,
market_cap_usd REAL, volume_usd REAL, timestamp DATETIME.
The autoincrement id is implicit in the list position. -/
structure PriceSample where
  cryptocurrency : String
  price_usd : ℚ
  market_cap_usd : ℚ
  volume_usd : ℚ
  timestamp : ℕ
  deriving DecidableEq, Repr

/-- The SQL aggregate `SELECT MAX(timestamp) FROM crypto_prices WHERE
cryptocurrency = asset` (the grouped subquery of
`fetch_latest_prices`).  SQL `MAX` of an empty group does not produce a
row; the `0` default is only reached for assets with no rows, where the
enclosing filter is vacuous. -/
def maxTimestampFor (store : List PriceSample) (asset : String) : ℕ :=
  ((store.filter (fun r => r.cryptocurrency == asset)).map (fun r => r.timestamp)).foldr max 0

/-- crypto_dashboard.py, `CryptoDashboard.fetch_latest_prices`:
`SELECT cryptocurrency, price_usd, timestamp FROM crypto_prices WHERE
(cryptocurrency, timestamp) IN (SELECT cryptocurrency, MAX(timestamp)
FROM crypto_prices GROUP BY cryptocurrency)`.  A row is returned iff its
(asset, timestamp) pair equals (asset, per-asset maximum timestamp);
result rows keep table-scan (insertion) order and carry the three
selected columns. -/
def fetch_latest_prices (store : List PriceSample) : List (String × ℚ × ℕ) :=
  (store.filter (fun r => r.timestamp == maxTimestampFor store r.cryptocurrency)).map
    (fun r => (r.cryptocurrency, r.price_usd, r.timestamp))

/-- Comparison used by `ORDER BY timestamp ASC`. -/
def tsLE (a b : PriceSample) : Prop := a.timestamp ≤ b.timestamp

instance : DecidableRel tsLE := fun a b => inferInstanceAs (Decidable (a.timestamp ≤ b.timestamp))

instance : IsTotal PriceSample tsLE := ⟨fun a b => Nat.le_total a.timestamp b.timestamp⟩

instance : IsTrans PriceSample tsLE := ⟨fun _ _ _ h1 h2 => Nat.le_trans h1 h2⟩

/-- crypto_dashboard.py, `CryptoDashboard.fetch_historical_data` (and the
identical crypto_visualizer.py `fetch_data`): `SELECT cryptocurrency,
timestamp, price_usd, market_cap_usd, volume_usd FROM crypto_prices
WHERE timestamp >= ? ORDER BY timestamp ASC`, with the placeholder bound
to the window threshold.  SQL guarantees some timestamp-ascending
permutation of the qualifying rows; a stable sort is one such
refinement. -/
def fetch_historical_data (store : List PriceSample) (since : ℕ) : List PriceSample :=
  List.insertionSort tsLE (store.filter (fun r => decide (since ≤ r.timestamp)))

/-- query_data.py, `query_crypto_history` lines 24-35, applied to the
per-asset result rows `(timestamp, price_usd)`: with `results` empty the
code takes the `else` branch (no computation, modelled `none`);
otherwise `first_price = results[0][1]`, `last_price = results[-1][1]`,
`price_change = ((last_price - first_price) / first_price) * 100`, which
raises `ZeroDivisionError` when `first_price == 0` (modelled `none`). -/
def percent_change (results : List (ℕ × ℚ)) : Option ℚ :=
  match results with
  | [] => none
  | r0 :: rest =>
    let first_price := r0.2
    let last_price := ((r0 :: rest).getLast (List.cons_ne_nil r0 rest)).2
    if first_price = 0 then none
    else some ((last_price - first_price) / first_price * 100)

/-- Store insert (spec §4.1 `insert`): the SQL INSERT appends one row at
the end of the append-only table. -/
def insertSample (store : List PriceSample) (s : PriceSample) : List PriceSample :=
  store ++ [s]

/-- C1: for every non-empty, time-ordered sample sequence S for a single
asset whose first price is non-zero (prices are positive by the data
model, spec §3), percent_change(S) equals
(S[-1].price - S[0].price) / S[0].price * 100 with S[0] and S[-1] the
first and last rows of the input. -/
theorem C1_percent_change (S : List (ℕ × ℚ)) (hne : S ≠ [])
    (hz : (S.head hne).2 ≠ 0) :
    percent_change S =
      some (((S.getLast hne).2 - (S.head hne).2) / (S.head hne).2 * 100) := by
  match S with
  | r0 :: rest =>
    simp only [List.head_cons] at hz
    simp [percent_change, hz]

/-- C1 witness: two bitcoin samples at prices 100 then 110 give a 10%
change. -/
theorem C1_percent_change_witness :
    percent_change [((0 : ℕ), (100 : ℚ)), (1, 110)] = some 10 := by
  have h := C1_percent_change [((0 : ℕ), (100 : ℚ)), (1, 110)] (by simp) (by norm_num)
  rw [h]
  norm_num [List.getLast]

/-- C5: percent_change is a division-by-zero error (no value) when the
first row's price is 0, and an error (no value) on the empty sequence,
so non-emptiness is a caller precondition. -/
theorem C5_percent_change_error_cases :
    percent_change [] = none ∧
    ∀ (S : List (ℕ × ℚ)) (hne : S ≠ []), (S.head hne).2 = 0 → percent_change S = none := by
  refine ⟨rfl, ?_⟩
  intro S hne hz
  match S with
  | r0 :: rest =>
    simp only [List.head_cons] at hz
    simp [percent_change, hz]

/-- C5 witness: a one-row sequence with price 0 yields no value. -/
theorem C5_percent_change_error_cases_witness :
    percent_change [((3 : ℕ), (0 : ℚ))] = none :=
  C5_percent_change_error_cases.2 [((3 : ℕ), (0 : ℚ))] (by simp) rfl

theorem le_foldr_max_of_mem {x : ℕ} {l : List ℕ} (h : x ∈ l) : x ≤ l.foldr max 0 := by
  induction l with
  | nil => cases h
  | cons a t ih =>
    rcases List.mem_cons.mp h with rfl | h
    · exact le_max_left _ _
    · exact le_trans (ih h) (le_max_right _ _)

theorem foldr_max_mem (l : List ℕ) (h : l ≠ []) : l.foldr max 0 ∈ l := by
  induction l with
  | nil => exact absurd rfl h
  | cons a t ih =>
    cases t with
    | nil => simp
    | cons b t' =>
      have hm := ih (by simp)
      rcases max_choice a ((b :: t').foldr max 0) with h1 | h1
      · rw [List.foldr_cons, h1]; exact List.mem_cons_self _ _
      · rw [List.foldr_cons, h1]; exact List.mem_cons_of_mem _ hm

theorem timestamp_le_maxTimestampFor {store : List PriceSample} {s : PriceSample}
    (h : s ∈ store) : s.timestamp ≤ maxTimestampFor store s.cryptocurrency := by
  apply le_foldr_max_of_mem
  exact List.mem_map_of_mem _ (List.mem_filter.mpr ⟨h, by simp⟩)

theorem exists_max_row {store : List PriceSample} {s : PriceSample} (h : s ∈ store) :
    ∃ r ∈ store, r.cryptocurrency = s.cryptocurrency ∧
      r.timestamp = maxTimestampFor store r.cryptocurrency := by
  have hsf : s ∈ store.filter (fun r => r.cryptocurrency == s.cryptocurrency) :=
    List.mem_filter.mpr ⟨h, by simp⟩
  have hne : (store.filter (fun r => r.cryptocurrency == s.cryptocurrency)).map
      (fun r => r.timestamp) ≠ [] := by
    intro hc
    rw [List.map_eq_nil_iff] at hc
    rw [hc] at hsf
    cases hsf
  have hmem := foldr_max_mem _ hne
  obtain ⟨r, hrf, hrts⟩ := List.mem_map.mp hmem
  obtain ⟨hr_store, hr_pred⟩ := List.mem_filter.mp hrf
  have hr_asset : r.cryptocurrency = s.cryptocurrency := by simpa using hr_pred
  refine ⟨r, hr_store, hr_asset, ?_⟩
  rw [maxTimestampFor, hr_asset]
  exact hrts

theorem length_filter_le_one {α : Type} (p : α → Bool) (l : List α)
    (hp : l.Pairwise (fun a b => ¬(p a = true ∧ p b = true))) :
    (l.filter p).length ≤ 1 := by
  induction l with
  | nil => simp
  | cons a t ih =>
    rcases List.pairwise_cons.mp hp with ⟨ha, ht⟩
    by_cases h : p a = true
    · have hnil : t.filter p = [] := by
        rw [List.filter_eq_nil_iff]
        intro b hb hpb
        exact (ha b hb) ⟨h, hpb⟩
      simp [List.filter_cons, h, hnil]
    · rw [List.filter_cons, if_neg h]
      exact ih ht

/-- Store holding two bitcoin rows that share the maximal timestamp 5:
the data model (spec §3) allows duplicate timestamps for one asset. -/
def dupStore : List PriceSample :=
  [{ cryptocurrency := "bitcoin", price_usd := 100, market_cap_usd := 1,
     volume_usd := 2, timestamp := 5 },
   { cryptocurrency := "bitcoin", price_usd := 101, market_cap_usd := 1,
     volume_usd := 2, timestamp := 5 }]

/-- C2 counterexample: on a store with two bitcoin rows sharing the
maximal timestamp, the latest-per-asset query returns two rows for
bitcoin, refuting "at most one row per distinct asset". -/
theorem C2_latest_per_asset_counterexample :
    ¬ ((fetch_latest_prices dupStore).filter (fun p => p.1 == "bitcoin")).length ≤ 1 := by
  decide

/-- C2 (amended): latest_per_asset() returns exactly the stored rows
achieving the per-asset maximum timestamp: every returned row's
timestamp is ≥ every stored row's timestamp for the same asset, every
asset with at least one stored row contributes at least one returned
row, an empty store gives an empty result, and the result has at most
one row per asset provided no two rows of the same asset share a
timestamp (with duplicated maximal timestamps all tied rows are
returned). -/
theorem C2_latest_per_asset (store : List PriceSample) :
    (∀ p ∈ fetch_latest_prices store, ∀ s ∈ store,
        s.cryptocurrency = p.1 → s.timestamp ≤ p.2.2)
    ∧ (∀ s ∈ store, ∃ p ∈ fetch_latest_prices store, p.1 = s.cryptocurrency)
    ∧ (store = [] → fetch_latest_prices store = [])
    ∧ (store.Pairwise (fun a b => a.cryptocurrency = b.cryptocurrency → a.timestamp ≠ b.timestamp) →
        ∀ asset : String,
          ((fetch_latest_prices store).filter (fun p => p.1 == asset)).length ≤ 1) := by
  refine ⟨?_, ?_, ?_, ?_⟩
  · intro p hp s hs hcs
    obtain ⟨r, hrf, rfl⟩ := List.mem_map.mp hp
    obtain ⟨hr_store, hr_pred⟩ := List.mem_filter.mp hrf
    have hmax : r.timestamp = maxTimestampFor store r.cryptocurrency := by simpa using hr_pred
    have hb := timestamp_le_maxTimestampFor hs
    rw [hcs] at hb
    rw [hmax]
    exact hb
  · intro s hs
    obtain ⟨r, hr_store, hr_asset, hr_max⟩ := exists_max_row hs
    refine ⟨(r.cryptocurrency, r.price_usd, r.timestamp), ?_, hr_asset⟩
    exact List.mem_map_of_mem _ (List.mem_filter.mpr ⟨hr_store, by simp [hr_max]⟩)
  · intro h
    rw [h]
    rfl
  · intro hpw asset
    have hrw : (fetch_latest_prices store).filter (fun p => p.1 == asset)
        = ((store.filter (fun r => r.timestamp == maxTimestampFor store r.cryptocurrency)).filter
            ((fun p : String × ℚ × ℕ => p.1 == asset) ∘
              (fun r => (r.cryptocurrency, r.price_usd, r.timestamp)))).map
            (fun r => (r.cryptocurrency, r.price_usd, r.timestamp)) := by
      rw [fetch_latest_prices, List.filter_map]
    rw [hrw, List.length_map, List.filter_filter]
    apply length_filter_le_one
    refine hpw.imp ?_
    intro a b hab hcon
    obtain ⟨ha, hb⟩ := hcon
    simp only [Function.comp, Bool.and_eq_true, beq_iff_eq] at ha hb
    have hcc : a.cryptocurrency = b.cryptocurrency := ha.1.trans hb.1.symm
    have hts : a.timestamp = b.timestamp := by
      rw [ha.2, hb.2, hcc]
    exact hab hcc hts

/-- Store with two bitcoin rows at distinct timestamps 4 and 9. -/
def distinctStore : List PriceSample :=
  [{ cryptocurrency := "bitcoin", price_usd := 100, market_cap_usd := 1,
     volume_usd := 2, timestamp := 4 },
   { cryptocurrency := "bitcoin", price_usd := 101, market_cap_usd := 1,
     volume_usd := 2, timestamp := 9 }]

/-- C2 witness: with distinct per-asset timestamps at most one bitcoin
row is returned, and the empty store yields an empty result. -/
theorem C2_latest_per_asset_witness :
    ((fetch_latest_prices distinctStore).filter (fun p => p.1 == "bitcoin")).length ≤ 1 ∧
    fetch_latest_prices ([] : List PriceSample) = [] := by
  constructor
  · exact (C2_latest_per_asset distinctStore).2.2.2 (by decide) ("bitcoin")
  · exact (C2_latest_per_asset ([] : List PriceSample)).2.2.1 rfl

theorem mem_fetch_historical_data {store : List PriceSample} {since : ℕ} {r : PriceSample} :
    r ∈ fetch_historical_data store since ↔ r ∈ store ∧ since ≤ r.timestamp := by
  rw [fetch_historical_data, List.mem_insertionSort, List.mem_filter]
  simp

/-- C3: range_query(since) returns exactly the rows with timestamp ≥
since (membership and multiplicity agree with the store, with no asset
filter), in ascending timestamp order, and returns the empty sequence
when since is later than every stored row's timestamp. -/
theorem C3_range_query (store : List PriceSample) (since : ℕ) :
    (∀ r : PriceSample, r ∈ fetch_historical_data store since ↔ r ∈ store ∧ since ≤ r.timestamp)
    ∧ (∀ r : PriceSample, since ≤ r.timestamp →
        (fetch_historical_data store since).count r = store.count r)
    ∧ List.Sorted tsLE (fetch_historical_data store since)
    ∧ ((∀ r ∈ store, r.timestamp < since) → fetch_historical_data store since = []) := by
  refine ⟨fun r => mem_fetch_historical_data, ?_, ?_, ?_⟩
  · intro r hr
    rw [fetch_historical_data, (List.perm_insertionSort tsLE _).count_eq]
    exact List.count_filter (by simpa using hr)
  · exact List.sorted_insertionSort tsLE _
  · intro h
    rw [fetch_historical_data]
    have hnil : store.filter (fun r => decide (since ≤ r.timestamp)) = [] := by
      rw [List.filter_eq_nil_iff]
      intro a ha
      simpa using Nat.not_le.mpr (h a ha)
    rw [hnil]
    rfl

/-- C3 witness: on the two-row bitcoin store, a threshold later than
both rows gives an empty result, and a threshold of 5 keeps the
timestamp-9 row with its multiplicity. -/
theorem C3_range_query_witness :
    fetch_historical_data distinctStore 100 = [] ∧
    (fetch_historical_data distinctStore 5).count
        { cryptocurrency := "bitcoin", price_usd := 101, market_cap_usd := 1,
          volume_usd := 2, timestamp := 9 }
      = distinctStore.count
        { cryptocurrency := "bitcoin", price_usd := 101, market_cap_usd := 1,
          volume_usd := 2, timestamp := 9 } := by
  constructor
  · exact (C3_range_query distinctStore 100).2.2.2 (by decide)
  · exact (C3_range_query distinctStore 5).2.1 _ (by decide)

/-- C7: inserting a PriceSample and reading back via range_query with
since ≤ its timestamp yields a row with identical asset, price, market
cap, volume and timestamp. -/
theorem C7_roundtrip (store : List PriceSample) (s : PriceSample) (since : ℕ)
    (h : since ≤ s.timestamp) :
    ∃ r ∈ fetch_historical_data (insertSample store s) since,
      r.cryptocurrency = s.cryptocurrency ∧ r.price_usd = s.price_usd ∧
      r.market_cap_usd = s.market_cap_usd ∧ r.volume_usd = s.volume_usd ∧
      r.timestamp = s.timestamp := by
  refine ⟨s, ?_, rfl, rfl, rfl, rfl, rfl⟩
  exact mem_fetch_historical_data.mpr ⟨by simp [insertSample], h⟩

/-- C7 witness: inserting an ethereum sample into the empty store and
querying from time 3 recovers a row with all its fields. -/
theorem C7_roundtrip_witness :
    ∃ r ∈ fetch_historical_data
        (insertSample []
          { cryptocurrency := "ethereum", price_usd := 2000, market_cap_usd := 30,
            volume_usd := 40, timestamp := 7 }) 3,
      r.cryptocurrency = "ethereum" ∧ r.price_usd = 2000 ∧
      r.market_cap_usd = 30 ∧ r.volume_usd = 40 ∧ r.timestamp = 7 :=
  C7_roundtrip []
    { cryptocurrency := "ethereum", price_usd := 2000, market_cap_usd := 30,
      volume_usd := 40, timestamp := 7 } 3 (by decide)

/-- One per-asset entry of the CoinGecko JSON response:
an object with `usd`, `usd_market_cap`, `usd_24h_vol` numeric fields. -/
structure CoinData where
  usd : ℚ
  usd_market_cap : ℚ
  usd_24h_vol : ℚ
  deriving DecidableEq, Repr

/-- The JSON response body: a dictionary keyed by asset id. -/
abbrev FetchResult := List (String × CoinData)

/-- Python dict lookup `crypto_data[crypto]`, as an Option (the `none`
case is where the code raises KeyError). -/
def dictGet (d : FetchResult) (k : String) : Option CoinData :=
  (d.find? (fun p => p.1 == k)).map (fun p => p.2)

/-- An HTTP response as seen by `requests.get`. -/
structure HttpResponse where
  status : ℕ
  body : FetchResult

/-- Outcome of the network call: either a response with some status
code, or a network-level error (`requests.RequestException`). -/
inductive NetOutcome where
  | response (resp : HttpResponse)
  | networkError

/-- Status check behind `response.raise_for_status()` (external
`requests` library; spec §6 defines the external interface as
"Non-2xx or network error ⇒ fetch failure"). -/
def statusOk (s : ℕ) : Bool := decide (200 ≤ s) && decide (s < 300)

/-- crypto_tracker.py, `CryptoTracker.fetch_crypto_data`: issue the GET,
`raise_for_status`, return the parsed JSON; any
`requests.RequestException` (network error or non-2xx status) is caught,
logged, and turned into `None`. -/
def fetch_crypto_data (o : NetOutcome) : Option FetchResult :=
  match o with
  | NetOutcome.networkError => none
  | NetOutcome.response resp => if statusOk resp.status then some resp.body else none

/-- The for-loop of `save_to_database` over `cryptos = ['bitcoin',
'ethereum']`: each iteration looks up `crypto_data[crypto]` (KeyError,
modelled `Except.error`, when the key is absent; an error discards the
uncommitted inserts of the same call, as closing the connection rolls
back the open transaction) and appends one row carrying the single
`timestamp` captured before the loop. -/
def insertAssets (now : ℕ) (d : FetchResult) :
    List String → List PriceSample → Except String (List PriceSample)
  | [], store => Except.ok store
  | c :: rest, store =>
    match dictGet d c with
    | none => Except.error c
    | some v =>
      insertAssets now d rest
        (store ++ [{ cryptocurrency := c, price_usd := v.usd,
                     market_cap_usd := v.usd_market_cap,
                     volume_usd := v.usd_24h_vol, timestamp := now }])

/-- The fixed asset list of crypto_tracker.py. -/
def trackedAssets : List String := ["bitcoin", "ethereum"]

/-- crypto_tracker.py, `CryptoTracker.save_to_database`: `if not
crypto_data: return` (falsy when `None` or the empty dict), then one
`datetime.now()` capture, then the insert loop, then commit. -/
def save_to_database (crypto_data : Option FetchResult) (now : ℕ)
    (store : List PriceSample) : Except String (List PriceSample) :=
  match crypto_data with
  | none => Except.ok store
  | some d => if d.isEmpty then Except.ok store else insertAssets now d trackedAssets store

/-- Python truthiness of `crypto_data` in `run`: `None` and the empty
dict are falsy. -/
def truthy : Option FetchResult → Bool
  | none => false
  | some d => !d.isEmpty

/-- One iteration of crypto_tracker.py, `CryptoTracker.run`: fetch,
then `if crypto_data:` save (display calls have no effect on the
store). -/
def runStep (o : NetOutcome) (now : ℕ) (store : List PriceSample) :
    Except String (List PriceSample) :=
  let crypto_data := fetch_crypto_data o
  if truthy crypto_data then save_to_database crypto_data now store
  else Except.ok store

/-- C4: when the fetch fails (its result is none or empty), one
iteration of the run loop returns the store unchanged and signals no
exception. -/
theorem C4_failed_fetch_is_noop (o : NetOutcome) (now : ℕ) (store : List PriceSample)
    (h : fetch_crypto_data o = none ∨ fetch_crypto_data o = some []) :
    runStep o now store = Except.ok store := by
  rcases h with h | h <;> rw [runStep] <;> simp [h, truthy]

/-- C4 witness: a network error leaves the empty store unchanged. -/
theorem C4_failed_fetch_is_noop_witness :
    runStep NetOutcome.networkError 0 [] = Except.ok [] :=
  C4_failed_fetch_is_noop NetOutcome.networkError 0 [] (Or.inl rfl)

/-- C8: on a network error or a non-2xx HTTP status, fetch() returns
the explicit failure value none (the exception is caught inside fetch,
so nothing is raised to the caller; the log line is a side effect not
modelled). -/
theorem C8_fetch_failure_returns_none (o : NetOutcome)
    (h : o = NetOutcome.networkError ∨
      ∃ resp, o = NetOutcome.response resp ∧ statusOk resp.status = false) :
    fetch_crypto_data o = none := by
  rcases h with rfl | ⟨resp, rfl, hresp⟩
  · rfl
  · rw [fetch_crypto_data]
    simp [hresp]

/-- C8 witness: an HTTP 500 response yields none. -/
theorem C8_fetch_failure_returns_none_witness :
    fetch_crypto_data (NetOutcome.response { status := 500, body := [] }) = none :=
  C8_fetch_failure_returns_none _ (Or.inr ⟨_, rfl, by decide⟩)

theorem insertAssets_ok_timestamps (now : ℕ) (d : FetchResult) :
    ∀ (cs : List String) (store store' : List PriceSample),
      insertAssets now d cs store = Except.ok store' →
      ∃ inserted, store' = store ++ inserted ∧ ∀ r ∈ inserted, r.timestamp = now := by
  intro cs
  induction cs with
  | nil =>
    intro store store' h
    refine ⟨[], ?_, by simp⟩
    cases h
    simp
  | cons c rest ih =>
    intro store store' h
    rw [insertAssets] at h
    cases hd : dictGet d c with
    | none => rw [hd] at h; cases h
    | some v =>
      rw [hd] at h
      obtain ⟨tail, htail, hts⟩ := ih _ _ h
      refine ⟨{ cryptocurrency := c, price_usd := v.usd,
                market_cap_usd := v.usd_market_cap,
                volume_usd := v.usd_24h_vol, timestamp := now } :: tail, ?_, ?_⟩
      · rw [htail]
        simp
      · intro r hr
        rcases List.mem_cons.mp hr with rfl | hr
        · rfl
        · exact hts r hr

/-- C9: a successful persist call appends its rows at the end of the
store and every appended row carries the single wall-clock timestamp
captured at the start of the call. -/
theorem C9_persist_single_timestamp (crypto_data : Option FetchResult) (now : ℕ)
    (store store' : List PriceSample)
    (h : save_to_database crypto_data now store = Except.ok store') :
    ∃ inserted, store' = store ++ inserted ∧ ∀ r ∈ inserted, r.timestamp = now := by
  match crypto_data with
  | none =>
    cases h
    exact ⟨[], by simp, by simp⟩
  | some d =>
    rw [save_to_database] at h
    by_cases hde : d.isEmpty
    · rw [if_pos hde] at h
      cases h
      exact ⟨[], by simp, by simp⟩
    · rw [if_neg hde] at h
      exact insertAssets_ok_timestamps now d trackedAssets store store' h

/-- A complete fetch result carrying both tracked assets. -/
def fullResult : FetchResult :=
  [("bitcoin", { usd := 100, usd_market_cap := 1, usd_24h_vol := 2 }),
   ("ethereum", { usd := 2000, usd_market_cap := 30, usd_24h_vol := 40 })]

/-- C9 witness: persisting a concrete two-asset result at time 7 into
the empty store appends rows that all carry timestamp 7. -/
theorem C9_persist_single_timestamp_witness :
    ∃ inserted,
      ([{ cryptocurrency := "bitcoin", price_usd := 100, market_cap_usd := 1,
          volume_usd := 2, timestamp := 7 },
        { cryptocurrency := "ethereum", price_usd := 2000, market_cap_usd := 30,
          volume_usd := 40, timestamp := 7 }] : List PriceSample)
        = [] ++ inserted ∧ ∀ r ∈ inserted, r.timestamp = 7 :=
  C9_persist_single_timestamp (some fullResult) 7 [] _ rfl

/-- C10: on a truthy fetch result, persist raises a lookup error when
the key bitcoin or ethereum is absent, and completes without raising
when both are present (falsy results are a no-op, per C4). -/
theorem C10_persist_missing_key (d : FetchResult) (now : ℕ) (store : List PriceSample)
    (hd : d ≠ []) :
    ((dictGet d ("bitcoin") = none ∨ dictGet d ("ethereum") = none) →
      ∃ e, save_to_database (some d) now store = Except.error e)
    ∧ ((∃ vb, dictGet d ("bitcoin") = some vb) → (∃ ve, dictGet d ("ethereum") = some ve) →
      ∃ st, save_to_database (some d) now store = Except.ok st) := by
  have hde : d.isEmpty = false := by
    cases d with
    | nil => exact absurd rfl hd
    | cons a t => rfl
  constructor
  · intro h
    rw [save_to_database, if_neg (by rw [hde]; exact Bool.false_ne_true)]
    rcases h with h | h
    · simp only [trackedAssets, insertAssets, h]
      exact ⟨"bitcoin", rfl⟩
    · cases hb : dictGet d ("bitcoin") with
      | none =>
        simp only [trackedAssets, insertAssets, hb]
        exact ⟨"bitcoin", rfl⟩
      | some vb =>
        simp only [trackedAssets, insertAssets, hb, h]
        exact ⟨"ethereum", rfl⟩
  · intro ⟨vb, hb⟩ ⟨ve, he⟩
    rw [save_to_database, if_neg (by rw [hde]; exact Bool.false_ne_true)]
    simp only [trackedAssets, insertAssets, hb, he]
    exact ⟨_, rfl⟩

/-- C10 witness: a result holding only bitcoin raises, while the full
two-asset result completes without raising. -/
theorem C10_persist_missing_key_witness :
    (∃ e, save_to_database
        (some [(("bitcoin" : String),
          ({ usd := 100, usd_market_cap := 1, usd_24h_vol := 2 } : CoinData))]) 7 []
      = Except.error e)
    ∧ (∃ st, save_to_database (some fullResult) 7 [] = Except.ok st) := by
  constructor
  · exact (C10_persist_missing_key
      [(("bitcoin" : String), ({ usd := 100, usd_market_cap := 1, usd_24h_vol := 2 } : CoinData))]
      7 [] (by simp)).1 (Or.inr rfl)
  · exact (C10_persist_missing_key fullResult 7 [] (by simp [fullResult])).2
      ⟨_, rfl⟩ ⟨_, rfl⟩

/-- pandas `Series.max()` over a non-empty column, as a left fold. -/
def colMax : List ℚ → ℚ
  | [] => 0
  | x :: xs => xs.foldl max x

/-- pandas `Series.min()` over a non-empty column, as a left fold. -/
def colMin : List ℚ → ℚ
  | [] => 0
  | x :: xs => xs.foldl min x

/-- pandas `Series.mean()`: sum divided by length. -/
def colMean (l : List ℚ) : ℚ := l.sum / (l.length : ℚ)

/-- The per-asset summary record built by
crypto_visualizer.py, `generate_summary_statistics` (and the identical
stats block of crypto_dashboard.py `main`). -/
structure SummaryStats where
  current_price : ℚ
  price_change : ℚ
  highest_price : ℚ
  lowest_price : ℚ
  average_volume : ℚ
  deriving DecidableEq, Repr

/-- crypto_visualizer.py, `generate_summary_statistics`, body of the
per-asset loop applied to the rows already filtered to one asset: the
`if not crypto_data.empty` guard skips empty row sets (modelled `none`,
the asset is omitted); otherwise `first_price = iloc[0]`,
`last_price = iloc[-1]`, percent change (ZeroDivisionError when
`first_price == 0`, modelled `none`), column max, column min, and mean
volume. -/
def generate_summary_statistics (rows : List PriceSample) : Option SummaryStats :=
  match rows with
  | [] => none
  | r0 :: rest =>
    let first_price := r0.price_usd
    let last_price := ((r0 :: rest).getLast (List.cons_ne_nil r0 rest)).price_usd
    if first_price = 0 then none
    else some
      { current_price := last_price
        price_change := (last_price - first_price) / first_price * 100
        highest_price := colMax ((r0 :: rest).map (fun r => r.price_usd))
        lowest_price := colMin ((r0 :: rest).map (fun r => r.price_usd))
        average_volume := colMean ((r0 :: rest).map (fun r => r.volume_usd)) }

theorem le_foldl_max_init (acc : ℚ) (xs : List ℚ) : acc ≤ xs.foldl max acc := by
  induction xs generalizing acc with
  | nil => exact le_refl acc
  | cons x t ih => exact le_trans (le_max_left acc x) (ih (max acc x))

theorem le_foldl_max_of_mem (x : ℚ) :
    ∀ (xs : List ℚ) (acc : ℚ), x ∈ xs → x ≤ xs.foldl max acc := by
  intro xs
  induction xs with
  | nil => intro acc h; cases h
  | cons a t ih =>
    intro acc h
    rcases List.mem_cons.mp h with rfl | h
    · exact le_trans (le_max_right acc x) (le_foldl_max_init _ t)
    · exact ih _ h

theorem foldl_max_mem (xs : List ℚ) :
    ∀ acc : ℚ, xs.foldl max acc = acc ∨ xs.foldl max acc ∈ xs := by
  induction xs with
  | nil => intro acc; exact Or.inl rfl
  | cons a t ih =>
    intro acc
    rcases ih (max acc a) with h | h
    · rcases max_choice acc a with h1 | h1
      · exact Or.inl (by rw [List.foldl_cons, h, h1])
      · exact Or.inr (by rw [List.foldl_cons, h, h1]; exact List.mem_cons_self _ _)
    · exact Or.inr (List.mem_cons_of_mem _ h)

theorem foldl_min_init_le (acc : ℚ) (xs : List ℚ) : xs.foldl min acc ≤ acc := by
  induction xs generalizing acc with
  | nil => exact le_refl acc
  | cons x t ih => exact le_trans (ih (min acc x)) (min_le_left acc x)

theorem foldl_min_le_of_mem (x : ℚ) :
    ∀ (xs : List ℚ) (acc : ℚ), x ∈ xs → xs.foldl min acc ≤ x := by
  intro xs
  induction xs with
  | nil => intro acc h; cases h
  | cons a t ih =>
    intro acc h
    rcases List.mem_cons.mp h with rfl | h
    · exact le_trans (foldl_min_init_le _ t) (min_le_right acc x)
    · exact ih _ h

theorem foldl_min_mem (xs : List ℚ) :
    ∀ acc : ℚ, xs.foldl min acc = acc ∨ xs.foldl min acc ∈ xs := by
  induction xs with
  | nil => intro acc; exact Or.inl rfl
  | cons a t ih =>
    intro acc
    rcases ih (min acc a) with h | h
    · rcases min_choice acc a with h1 | h1
      · exact Or.inl (by rw [List.foldl_cons, h, h1])
      · exact Or.inr (by rw [List.foldl_cons, h, h1]; exact List.mem_cons_self _ _)
    · exact Or.inr (List.mem_cons_of_mem _ h)

theorem colMax_is_max (rows : List PriceSample) (hne : rows ≠ []) :
    (∀ r ∈ rows, r.price_usd ≤ colMax (rows.map (fun r => r.price_usd)))
    ∧ ∃ r ∈ rows, r.price_usd = colMax (rows.map (fun r => r.price_usd)) := by
  match rows with
  | r0 :: rest =>
    rw [List.map_cons, colMax]
    constructor
    · intro r hr
      rcases List.mem_cons.mp hr with rfl | hr
      · exact le_foldl_max_init _ _
      · exact le_foldl_max_of_mem _ _ _ (List.mem_map_of_mem _ hr)
    · rcases foldl_max_mem (rest.map (fun r => r.price_usd)) r0.price_usd with h | h
      · exact ⟨r0, List.mem_cons_self _ _, h.symm⟩
      · obtain ⟨r, hr, hrp⟩ := List.mem_map.mp h
        exact ⟨r, List.mem_cons_of_mem _ hr, hrp⟩

theorem colMin_is_min (rows : List PriceSample) (hne : rows ≠ []) :
    (∀ r ∈ rows, colMin (rows.map (fun r => r.price_usd)) ≤ r.price_usd)
    ∧ ∃ r ∈ rows, r.price_usd = colMin (rows.map (fun r => r.price_usd)) := by
  match rows with
  | r0 :: rest =>
    rw [List.map_cons, colMin]
    constructor
    · intro r hr
      rcases List.mem_cons.mp hr with rfl | hr
      · exact foldl_min_init_le _ _
      · exact foldl_min_le_of_mem _ _ _ (List.mem_map_of_mem _ hr)
    · rcases foldl_min_mem (rest.map (fun r => r.price_usd)) r0.price_usd with h | h
      · exact ⟨r0, List.mem_cons_self _ _, h.symm⟩
      · obtain ⟨r, hr, hrp⟩ := List.mem_map.mp h
        exact ⟨r, List.mem_cons_of_mem _ hr, hrp⟩

/-- C6: for non-empty rows (with the non-zero first price required by
the data model, spec §3, and C5), the summary reports current price =
last row's price, the percent_change of the rows, an attained maximum
price, an attained minimum price, and the mean of the volumes; an empty
row set produces no summary entry. -/
theorem C6_summary_statistics :
    generate_summary_statistics [] = none ∧
    ∀ (rows : List PriceSample) (hne : rows ≠ []),
      (rows.head hne).price_usd ≠ 0 →
      ∃ s, generate_summary_statistics rows = some s
        ∧ s.current_price = (rows.getLast hne).price_usd
        ∧ percent_change (rows.map (fun r => (r.timestamp, r.price_usd))) = some s.price_change
        ∧ (∀ r ∈ rows, r.price_usd ≤ s.highest_price)
        ∧ (∃ r ∈ rows, r.price_usd = s.highest_price)
        ∧ (∀ r ∈ rows, s.lowest_price ≤ r.price_usd)
        ∧ (∃ r ∈ rows, r.price_usd = s.lowest_price)
        ∧ s.average_volume = (rows.map (fun r => r.volume_usd)).sum / (rows.length : ℚ) := by
  refine ⟨rfl, ?_⟩
  intro rows hne hz
  match rows with
  | r0 :: rest =>
    simp only [List.head_cons] at hz
    have hgen : generate_summary_statistics (r0 :: rest) = some
        { current_price := ((r0 :: rest).getLast (List.cons_ne_nil r0 rest)).price_usd
          price_change := (((r0 :: rest).getLast (List.cons_ne_nil r0 rest)).price_usd
              - r0.price_usd) / r0.price_usd * 100
          highest_price := colMax ((r0 :: rest).map (fun r => r.price_usd))
          lowest_price := colMin ((r0 :: rest).map (fun r => r.price_usd))
          average_volume := colMean ((r0 :: rest).map (fun r => r.volume_usd)) } := by
      rw [generate_summary_statistics]
      simp only [hz, if_false, if_neg hz]
    refine ⟨_, hgen, rfl, ?_, ?_, ?_, ?_, ?_, ?_⟩
    · rw [List.map_cons, percent_change]
      have hlast : (((r0.timestamp, r0.price_usd) :: rest.map (fun r => (r.timestamp, r.price_usd))).getLast
            (List.cons_ne_nil _ _))
          = ((r0 :: rest).map (fun r => (r.timestamp, r.price_usd))).getLast (by simp) := rfl
      simp [hz, hlast]
      rw [List.getLast_map]
    · exact (colMax_is_max (r0 :: rest) (List.cons_ne_nil r0 rest)).1
    · exact (colMax_is_max (r0 :: rest) (List.cons_ne_nil r0 rest)).2
    · exact (colMin_is_min (r0 :: rest) (List.cons_ne_nil r0 rest)).1
    · exact (colMin_is_min (r0 :: rest) (List.cons_ne_nil r0 rest)).2
    · rw [colMean, List.length_map]

/-- Rows for the spec §8 scenario: bitcoin at price 100 then 110. -/
def scenarioRows : List PriceSample :=
  [{ cryptocurrency := "bitcoin", price_usd := 100, market_cap_usd := 1,
     volume_usd := 2, timestamp := 0 },
   { cryptocurrency := "bitcoin", price_usd := 110, market_cap_usd := 1,
     volume_usd := 4, timestamp := 1 }]

/-- C6 witness: on the 100-then-110 scenario rows a summary is produced
and its current price is 110. -/
theorem C6_summary_statistics_witness :
    ∃ s, generate_summary_statistics scenarioRows = some s ∧ s.current_price = 110 := by
  obtain ⟨s, hgen, hcur, _, _, _, _, _, _⟩ :=
    C6_summary_statistics.2 scenarioRows (by simp [scenarioRows]) (by norm_num [scenarioRows])
  refine ⟨s, hgen, ?_⟩
  rw [hcur]
  norm_num [scenarioRows, List.getLast]
